import Mathlib

/-!
Verification of the expense-tracker core (`src/expense_tracker.py`).

Modelling conventions:
* Strings are `List Char`.
* Python `float` amounts are modelled as exact rationals `ℚ`; valid monetary
  amounts carry two-decimal precision (`(q * 100).den = 1`), matching the
  spec's data model, and are serialized as exact decimal numerals.
* `float(str)` is modelled by `parseFloat`, covering plain decimal numerals
  with an optional sign and at most one decimal point (the only forms that
  occur in expense files; exponents, infinities and NaN are out of scope).
* The CSV layer models Python's `csv` module with the default dialect:
  comma delimiter, minimal quoting with `"` doubled inside quoted fields,
  and `\r\n` line terminator.
-/

namespace ExpenseTracker

/-- `c` is an ASCII decimal digit. -/
def isDigit (c : Char) : Bool := '0' ≤ c && c ≤ '9'

/-- Numeric value of a digit character. -/
def charToDigit (c : Char) : Nat := c.toNat - '0'.toNat

/-- Digit character for a value below 10. -/
def digitChar (d : Nat) : Char := Char.ofNat ('0'.toNat + d)

/-- Little-endian (least significant digit first) decimal digits of `n`. -/
def natToCharsRev (n : Nat) : List Char :=
  if h : n < 10 then [digitChar n]
  else digitChar (n % 10) :: natToCharsRev (n / 10)
  decreasing_by exact Nat.div_lt_self (by omega) (by omega)

/-- Usual big-endian decimal numeral of `n`. -/
def natToChars (n : Nat) : List Char := (natToCharsRev n).reverse

/-- Value of a little-endian digit list. -/
def revDigitsVal : List Char → Nat
  | [] => 0
  | c :: cs => charToDigit c + 10 * revDigitsVal cs

/-- Value of a big-endian digit list (what reading digits left to right yields). -/
def digitsToNat (l : List Char) : Nat := revDigitsVal l.reverse

/-- Two-digit zero-padded numeral for a value below 100. -/
def pad2 (n : Nat) : List Char := [digitChar (n / 10), digitChar (n % 10)]

/-- Unsigned decimal numeral: digits with at most one decimal point and at
least one digit overall. Returns the exact rational value. -/
def parseUnsigned (t : List Char) : Option ℚ :=
  match t.dropWhile isDigit with
  | [] =>
      if (t.takeWhile isDigit).isEmpty then none
      else some (digitsToNat (t.takeWhile isDigit) : ℚ)
  | c :: frac =>
      if c = '.' then
        if (frac.dropWhile isDigit).isEmpty then
          if (t.takeWhile isDigit).isEmpty && (frac.takeWhile isDigit).isEmpty then none
          else some ((digitsToNat (t.takeWhile isDigit) : ℚ) +
            (digitsToNat (frac.takeWhile isDigit) : ℚ) /
              (10 : ℚ) ^ (frac.takeWhile isDigit).length)
        else none
      else none

/-- Model of Python `float(s)` restricted to plain decimal numerals:
optional sign, then digits with at most one decimal point and at least one
digit. Returns the exact rational value. -/
def parseFloat (s : List Char) : Option ℚ :=
  match s with
  | [] => none
  | c :: t =>
      if c = '-' then (parseUnsigned t).map Neg.neg
      else if c = '+' then parseUnsigned t
      else parseUnsigned (c :: t)

/-- Exact decimal rendering of a two-decimal nonnegative amount `q`
(`showAmount (81/2) = "40.50"`): the integer part followed by a point and the
two cent digits. -/
def showAmount (q : ℚ) : List Char :=
  let n : Nat := (q * 100).num.toNat
  natToChars (n / 100) ++ '.' :: pad2 (n % 100)

/-! ### CSV layer (Python `csv` module, default dialect) -/

/-- Characters that force a field to be quoted by `csv.writer`
(delimiter, quote character, line-terminator characters). -/
def csvSpecial (c : Char) : Bool := c = ',' || c = '"' || c = '\r' || c = '\n'

/-- `csv.writer` quotes a field iff it contains a special character
(QUOTE_MINIMAL). -/
def needsQuote (f : List Char) : Bool := f.any csvSpecial

/-- Inside a quoted field every `"` is doubled. -/
def escapeQuotes : List Char → List Char
  | [] => []
  | c :: cs => if c = '"' then '"' :: '"' :: escapeQuotes cs else c :: escapeQuotes cs

/-- Rendering of one field by `csv.writer`. -/
def quoteField (f : List Char) : List Char :=
  if needsQuote f then '"' :: (escapeQuotes f ++ ['"']) else f

/-- Rendering of one row by `csv.writer.writerow`: comma-joined fields plus
the `\r\n` terminator. -/
def writeRow : List (List Char) → List Char
  | [] => ['\r', '\n']
  | [f] => quoteField f ++ ['\r', '\n']
  | f :: g :: fs => quoteField f ++ ',' :: writeRow (g :: fs)

/-- Full file written by repeated `writerow`. -/
def writeCsv (rows : List (List (List Char))) : List Char :=
  (rows.map writeRow).flatten

/-- Reads the content of a quoted field after the opening `"`:
doubled quotes become one literal quote, a lone `"` closes the field.
Returns the field content and the input remaining after the closing quote. -/
def parseQuoted : List Char → List Char × List Char
  | [] => ([], [])
  | c :: rest =>
      if c = '"' then
        match rest with
        | [] => ([], [])
        | c2 :: rest2 =>
            if c2 = '"' then ('"' :: (parseQuoted rest2).1, (parseQuoted rest2).2)
            else ([], c2 :: rest2)
      else (c :: (parseQuoted rest).1, (parseQuoted rest).2)

/-- A character terminating an unquoted field: delimiter or end of record. -/
def fieldSep (c : Char) : Bool := c = ',' || c = '\r' || c = '\n'

/-- Reads one field of a record, quoted or not (`csv.reader` is lenient:
characters after a closing quote up to the next separator are appended to the
field). Returns the field and the remaining input, which starts with a
separator or is empty. -/
def parseField : List Char → List Char × List Char
  | [] => ([], [])
  | c :: rest =>
      if c = '"' then
        ((parseQuoted rest).1 ++ (parseQuoted rest).2.takeWhile (fun x => !fieldSep x),
         (parseQuoted rest).2.dropWhile (fun x => !fieldSep x))
      else ((c :: rest).takeWhile (fun x => !fieldSep x),
            (c :: rest).dropWhile (fun x => !fieldSep x))

/-- Reads one record: fields separated by commas, terminated by an end of
line (`\r\n`, `\n` or `\r`) or end of input. `fuel` bounds the number of
fields; `s.length` always suffices. Returns the record and the rest of the
input after the line terminator. -/
def parseRecAux : Nat → List Char → List (List Char) × List Char
  | 0, s => ([(parseField s).1], [])
  | fuel + 1, s =>
      match (parseField s).2 with
      | [] => ([(parseField s).1], [])
      | c :: r =>
          if c = ',' then
            ((parseField s).1 :: (parseRecAux fuel r).1, (parseRecAux fuel r).2)
          else if c = '\r' then
            match r with
            | [] => ([(parseField s).1], [])
            | c2 :: r2 =>
                if c2 = '\n' then ([(parseField s).1], r2)
                else ([(parseField s).1], c2 :: r2)
          else ([(parseField s).1], r)

/-- Splits a file into records. `fuel` bounds the number of records;
`s.length` always suffices. -/
def csvParseAux : Nat → List Char → List (List (List Char))
  | 0, _ => []
  | _ + 1, [] => []
  | fuel + 1, c :: s =>
      (parseRecAux (c :: s).length (c :: s)).1 ::
        csvParseAux fuel (parseRecAux (c :: s).length (c :: s)).2

/-- Model of `csv.reader` applied to a whole file: the list of records, each
a list of fields. (On a blank line Python yields a zero-field record where
this model yields one empty field; both fall below the four-field threshold
of the loader, so the difference is unobservable in this program.) -/
def csvParse (s : List Char) : List (List (List Char)) :=
  csvParseAux s.length s

/-! ### Data model and persistence (`load_expenses_from_csv`, `save_expenses_to_csv`) -/

/-- One expense record (the dictionaries built by the Python code). -/
structure Expense where
  date : List Char
  amount : ℚ
  category : List Char
  description : List Char
deriving DecidableEq, Repr

/-- A valid amount per the spec's data model: finite (always true of `ℚ`),
nonnegative, with two-decimal precision. -/
def ValidAmount (q : ℚ) : Prop := 0 ≤ q ∧ (q * 100).den = 1

/-- A valid Expense entry (the amount constraint is the one the round trip
depends on; date, category and description may be arbitrary text). -/
def ValidExpense (e : Expense) : Prop := ValidAmount e.amount

/-- Outcome of the loader's body on one CSV row: rows with fewer than four
fields are skipped by the `len(row) >= 4` guard, a row whose amount field
does not parse raises (`float(row[1])` → `ValueError`), any other row with
at least four fields builds an expense from its first four fields. -/
inductive RowResult where
  | skip
  | err
  | ok (e : Expense)
deriving DecidableEq, Repr

/-- One iteration of the row loop in `load_expenses_from_csv`. -/
def processRow : List (List Char) → RowResult
  | d :: a :: c :: de :: _ =>
      match parseFloat a with
      | none => .err
      | some q => .ok ⟨d, q, c, de⟩
  | _ => .skip

/-- The row loop of `load_expenses_from_csv`: accepted expenses accumulate;
an exception aborts the loop, keeping the expenses accumulated so far and
setting the error flag (the `except` clause prints the error and the
function still returns the partial list). -/
def processRows : List (List (List Char)) → List Expense × Bool
  | [] => ([], false)
  | r :: rs =>
      match processRow r with
      | .skip => processRows rs
      | .err => ([], true)
      | .ok e => ((e :: (processRows rs).1), (processRows rs).2)

/-- The expense a row would contribute, if any (first four fields, amount
parsed as a decimal). -/
def rowToExpense : List (List Char) → Option Expense
  | d :: a :: c :: de :: _ => (parseFloat a).map fun q => ⟨d, q, c, de⟩
  | _ => none

/-- `load_expenses_from_csv`, given the file's content: parse the CSV,
drop the header row (`next(reader, None)`), and run the row loop. Returns
the resulting list together with the flag of whether an error was reported.
-/
def load_expenses_from_csv (file : List Char) : List Expense × Bool :=
  processRows ((csvParse file).drop 1)

/-- The header row `["Date", "Amount", "Category", "Description"]`. -/
def headerRow : List (List Char) :=
  ["Date".toList, "Amount".toList, "Category".toList, "Description".toList]

/-- The CSV row written for one expense. -/
def expenseRow (e : Expense) : List (List Char) :=
  [e.date, showAmount e.amount, e.category, e.description]

/-- `save_expenses_to_csv`, successful path: the file content written —
header plus one row per expense in sequence order. -/
def save_expenses_to_csv (expenses : List Expense) : List Char :=
  writeCsv (headerRow :: expenses.map expenseRow)

/-- Observable effect of one call to `save_expenses_to_csv` including the
I/O-failure path (`except` clause): the written file if the write
succeeded, whether an error message was printed, and the in-memory list as
the caller sees it after the call (the function only iterates over
`expenses`; it never mutates it on either path). -/
structure SaveEffect where
  written : Option (List Char)
  errorReported : Bool
  store : List Expense
deriving DecidableEq, Repr

/-- One call to `save_expenses_to_csv` under an environment where the write
either succeeds (`writeOk = true`) or raises an I/O error. -/
def saveEffect (expenses : List Expense) (writeOk : Bool) : SaveEffect :=
  if writeOk then
    { written := some (save_expenses_to_csv expenses), errorReported := false,
      store := expenses }
  else
    { written := none, errorReported := true, store := expenses }

/-! ### Input validation (`get_valid_date_from_user`, `add_expense`) -/

/-- Python `str.capitalize()`: first character uppercased, every other
character lowercased. -/
def pyCapitalize : List Char → List Char
  | [] => []
  | c :: cs => c.toUpper :: cs.map Char.toLower

/-- Python `str.lower()` (ASCII-faithful). -/
def pyLower (s : List Char) : List Char := s.map Char.toLower

/-- Splits a string at every `/` (like matching the `%m/%d/%Y` pattern,
whose groups cannot contain `/`). -/
def splitSlash : List Char → List (List Char)
  | [] => [[]]
  | c :: rest =>
      if c = '/' then [] :: splitSlash rest
      else (c :: (splitSlash rest).headD []) :: (splitSlash rest).tail

/-- `strptime`'s `%m` and `%d` directives match one or two digits; the
numeric value must lie in `[lo, hi]`. -/
def matchNum2 (lo hi : Nat) (s : List Char) : Option Nat :=
  if s.all isDigit && decide (1 ≤ s.length) && decide (s.length ≤ 2)
     && decide (lo ≤ digitsToNat s) && decide (digitsToNat s ≤ hi) then
    some (digitsToNat s)
  else none

/-- `strptime`'s `%Y` directive matches exactly four digits. -/
def matchYear4 (s : List Char) : Option Nat :=
  if s.all isDigit && decide (s.length = 4) then some (digitsToNat s) else none

/-- Gregorian leap-year rule used by `datetime`. -/
def isLeap (y : Nat) : Bool := (y % 4 = 0 && y % 100 ≠ 0) || y % 400 = 0

/-- Days in a month per `datetime`. -/
def daysInMonth (y m : Nat) : Nat :=
  if m = 2 then (if isLeap y then 29 else 28)
  else if m = 4 || m = 6 || m = 9 || m = 11 then 30
  else 31

/-- Model of `datetime.strptime(s, "%m/%d/%Y")` succeeding: the string is
month `/` day `/` year with a one-or-two-digit month in 1–12, a
one-or-two-digit day in 1–31, a four-digit year, and the triple names an
existing calendar date (`datetime` also requires year ≥ 1 and
day ≤ days in the month). Returns the date on success. -/
def strptimeMDY (s : List Char) : Option (Nat × Nat × Nat) :=
  match splitSlash s with
  | [mp, dp, yp] =>
      match matchNum2 1 12 mp, matchNum2 1 31 dp, matchYear4 yp with
      | some m, some d, some y =>
          if 1 ≤ y ∧ d ≤ daysInMonth y m then some (m, d, y) else none
      | _, _, _ => none
  | _ => none

/-- The accept step of `get_valid_date_from_user` on one (already stripped)
input line: `today` (case-insensitively) yields the current date formatted
as `MM/DD/YYYY` (passed here as `today`); otherwise the input is returned
unchanged iff `strptime` accepts it; `none` means the loop re-prompts. -/
def validateDateInput (today : List Char) (s : List Char) : Option (List Char) :=
  if pyLower s = "today".toList then some today
  else match strptimeMDY s with
       | some _ => some s
       | none => none

/-! ### Reporting (`view_expenses`, `show_statistics`) -/

/-- `category_totals[category] += amount` / `= amount` on an
insertion-ordered association list (a Python dict keyed by category). -/
def addToTotals : List (List Char × ℚ) → List Char → ℚ → List (List Char × ℚ)
  | [], c, a => [(c, a)]
  | p :: ps, c, a =>
      if p.1 = c then (p.1, p.2 + a) :: ps else p :: addToTotals ps c a

/-- The `category_totals` dict built by both `view_expenses` and
`show_statistics`: category → summed amount, insertion ordered. -/
def category_totals (expenses : List Expense) : List (List Char × ℚ) :=
  expenses.foldl (fun acc e => addToTotals acc e.category e.amount) []

/-- Sum of the values of an association list (`sum(d.values())`). -/
def sumValues (l : List (List Char × ℚ)) : ℚ := (l.map Prod.snd).sum

/-- `total_spent` in `show_statistics`: sum of all amounts. -/
def totalSpent (expenses : List Expense) : ℚ := (expenses.map Expense.amount).sum

/-- Lexicographic comparison of strings by character code, the order
`sorted` uses on the category keys. -/
def charListLe : List Char → List Char → Bool
  | [], _ => true
  | _ :: _, [] => false
  | a :: as, b :: bs =>
      if a = b then charListLe as bs else decide (a < b)

/-- Comparison used by `sorted(category_totals.items())`. -/
def pairLe (p q : List Char × ℚ) : Bool :=
  if p.1 = q.1 then decide (p.2 ≤ q.2) else charListLe p.1 q.1

/-- Result of `view_expenses`: an empty store prints `No expenses to show.`
and returns (`noData`); otherwise the category totals sorted by key are
displayed followed by the grand total. -/
inductive ViewResult where
  | noData
  | table (rows : List (List Char × ℚ)) (grandTotal : ℚ)
deriving DecidableEq, Repr

/-- `view_expenses`. -/
def view_expenses (expenses : List Expense) : ViewResult :=
  if expenses = [] then .noData
  else .table ((category_totals expenses).mergeSort pairLe)
              (sumValues (category_totals expenses))

/-- `category_percentages` in `show_statistics`:
`(total / total_spent) * 100` per category, insertion ordered. -/
def category_percentages (expenses : List Expense) : List (List Char × ℚ) :=
  (category_totals expenses).map fun p => (p.1, p.2 / totalSpent expenses * 100)

/-- Result of `show_statistics`: an empty store is the distinct no-data
case; a non-empty store whose total is 0 reaches
`(total / total_spent) * 100` with `total_spent == 0` and raises
`ZeroDivisionError`; otherwise the statistics are displayed. -/
inductive StatsResult where
  | noData
  | zeroDivisionError
  | ok (totalSpent : ℚ) (percentages : List (List Char × ℚ))
deriving DecidableEq, Repr

/-- `show_statistics` (the highest-expense display is omitted from the
result; no claim concerns it). -/
def show_statistics (expenses : List Expense) : StatsResult :=
  if expenses = [] then .noData
  else if totalSpent expenses = 0 then .zeroDivisionError
  else .ok (totalSpent expenses) (category_percentages expenses)

/-- Inverse of `splitSlash`: joins parts with `/`. -/
def joinSlash : List (List Char) → List Char
  | [] => []
  | [p] => p
  | p :: q :: ps => p ++ '/' :: joinSlash (q :: ps)

/-- Declarative description of the date strings the code accepts via
`strptimeMDY` (amended claim C5): month `/` day `/` year where month and day
have one or two digits, the year exactly four, with month in 1–12, day ≥ 1,
year ≥ 1 and day at most the length of that month. -/
def AcceptableDate (s : List Char) : Prop :=
  ∃ mp dp yp,
    s = mp ++ '/' :: (dp ++ '/' :: yp) ∧
    (∀ c ∈ mp, isDigit c = true) ∧ 1 ≤ mp.length ∧ mp.length ≤ 2 ∧
    1 ≤ digitsToNat mp ∧ digitsToNat mp ≤ 12 ∧
    (∀ c ∈ dp, isDigit c = true) ∧ 1 ≤ dp.length ∧ dp.length ≤ 2 ∧
    1 ≤ digitsToNat dp ∧
    (∀ c ∈ yp, isDigit c = true) ∧ yp.length = 4 ∧
    1 ≤ digitsToNat yp ∧
    digitsToNat dp ≤ daysInMonth (digitsToNat yp) (digitsToNat mp)


/-- The acceptance predicate exactly as claim C5 states it, written from the
spec's words: the literal token `today` compared case-insensitively, or a
two-digit month, two-digit day and four-digit year naming an existing
calendar date. -/
def specClaimedDateAccepts (s : List Char) : Bool :=
  (s.map Char.toLower == "today".toList) ||
  (match splitSlash s with
   | [mp, dp, yp] =>
       mp.all isDigit && decide (mp.length = 2) &&
       dp.all isDigit && decide (dp.length = 2) &&
       yp.all isDigit && decide (yp.length = 4) &&
       decide (1 ≤ digitsToNat mp) && decide (digitsToNat mp ≤ 12) &&
       decide (1 ≤ digitsToNat dp) &&
       decide (1 ≤ digitsToNat yp) &&
       decide (digitsToNat dp ≤ daysInMonth (digitsToNat yp) (digitsToNat mp))
   | _ => false)

/-! ### Concrete data used in counterexamples and witnesses -/

/-- A file whose well-formed first data row precedes a malformed-amount row. -/
def fileGoodThenBad : List Char :=
  "Date,Amount,Category,Description\r\n01/15/2024,50,Food,lunch\r\nbad,abc,x,y\r\n".toList

/-- A file whose malformed-amount data row precedes a well-formed row. -/
def fileBadThenGood : List Char :=
  "Date,Amount,Category,Description\r\nbad,abc,x,y\r\n01/16/2024,30,Food,dinner\r\n".toList

def lunchExpense : Expense :=
  ⟨"01/15/2024".toList, 50, "Food".toList, "lunch".toList⟩

def dinnerExpense : Expense :=
  ⟨"01/16/2024".toList, 30, "Food".toList, "dinner".toList⟩

def busExpense : Expense :=
  ⟨"01/17/2024".toList, 20, "Transport".toList, "bus".toList⟩

/-- An expense with the valid amount 0. -/
def zeroExpense : Expense :=
  ⟨"01/01/2024".toList, 0, "Food".toList, []⟩

/-- The spec's worked scenario: lunch 50, dinner 30, bus 20. -/
def scenarioExpenses : List Expense := [lunchExpense, dinnerExpense, busExpense]

def lunchRow : List (List Char) :=
  ["01/15/2024".toList, "50".toList, "Food".toList, "lunch".toList]

def dinnerRow : List (List Char) :=
  ["01/16/2024".toList, "30".toList, "Food".toList, "dinner".toList]

def busRow : List (List Char) :=
  ["01/17/2024".toList, "20".toList, "Transport".toList, "bus".toList]

/-- A data row with a malformed (non-numeric) amount field. -/
def badRow : List (List Char) :=
  ["bad".toList, "abc".toList, "x".toList, "y".toList]

/-- A truncated data row with only two fields. -/
def shortRow : List (List Char) := ["a".toList, "b".toList]

/-- The row list of the spec's short-row scenario: the second data row has
only two fields. -/
def shortRowScenario : List (List (List Char)) := [lunchRow, shortRow, busRow]

/-! ## Lemmas -/

theorem length_dropWhile_le (p : Char → Bool) (l : List Char) :
    (l.dropWhile p).length ≤ l.length :=
  (List.dropWhile_sublist p).length_le

theorem parseQuoted_length_le (s : List Char) : (parseQuoted s).2.length ≤ s.length := by
  induction s using parseQuoted.induct with
  | case1 => simp [parseQuoted]
  | case2 => simp [parseQuoted]
  | case3 rest2 ih => simp [parseQuoted]; omega
  | case4 c2 rest2 h => simp [parseQuoted, h]
  | case5 c2 rest2 h ih =>
      rw [parseQuoted.eq_def]
      simp [h]
      omega

theorem parseField_length_le (s : List Char) : (parseField s).2.length ≤ s.length := by
  match s with
  | [] => simp [parseField]
  | c :: rest =>
      simp only [parseField]
      split
      · exact le_trans (le_trans (length_dropWhile_le _ _) (parseQuoted_length_le _)) (by simp)
      · exact length_dropWhile_le _ _


theorem charToDigit_digitChar (d : Nat) (h : d < 10) : charToDigit (digitChar d) = d := by
  interval_cases d <;> decide

theorem isDigit_digitChar (d : Nat) (h : d < 10) : isDigit (digitChar d) = true := by
  interval_cases d <;> decide

theorem revDigitsVal_natToCharsRev (n : Nat) : revDigitsVal (natToCharsRev n) = n := by
  induction n using natToCharsRev.induct with
  | case1 n h =>
      rw [natToCharsRev, dif_pos h]
      simp [revDigitsVal, charToDigit_digitChar n h]
  | case2 n h ih =>
      rw [natToCharsRev, dif_neg h]
      simp only [revDigitsVal, ih, charToDigit_digitChar (n % 10) (Nat.mod_lt n (by omega))]
      omega

theorem natToCharsRev_digits (n : Nat) : ∀ c ∈ natToCharsRev n, isDigit c = true := by
  induction n using natToCharsRev.induct with
  | case1 n h =>
      rw [natToCharsRev, dif_pos h]
      simpa using isDigit_digitChar n h
  | case2 n h ih =>
      rw [natToCharsRev, dif_neg h]
      intro c hc
      rcases List.mem_cons.mp hc with rfl | hc
      · exact isDigit_digitChar _ (Nat.mod_lt n (by omega))
      · exact ih c hc

theorem natToChars_digits (n : Nat) : ∀ c ∈ natToChars n, isDigit c = true := by
  intro c hc
  exact natToCharsRev_digits n c (List.mem_reverse.mp hc)

theorem natToChars_ne_nil (n : Nat) : natToChars n ≠ [] := by
  unfold natToChars
  intro hc
  have := congrArg List.length hc
  rw [List.length_reverse] at this
  unfold natToCharsRev at this
  split at this <;> simp at this

theorem digitsToNat_natToChars (n : Nat) : digitsToNat (natToChars n) = n := by
  simp [digitsToNat, natToChars, revDigitsVal_natToCharsRev]

theorem pad2_digits (n : Nat) (h : n < 100) : ∀ c ∈ pad2 n, isDigit c = true := by
  intro c hc
  rcases List.mem_cons.mp hc with rfl | hc
  · exact isDigit_digitChar _ (by omega)
  · rcases List.mem_cons.mp hc with rfl | hc
    · exact isDigit_digitChar _ (by omega)
    · simp at hc

theorem digitsToNat_pad2 (n : Nat) (h : n < 100) : digitsToNat (pad2 n) = n := by
  simp only [digitsToNat, pad2, List.reverse_cons, List.reverse_nil]
  simp only [List.nil_append, List.cons_append, revDigitsVal]
  rw [charToDigit_digitChar _ (by omega), charToDigit_digitChar _ (by omega)]
  omega


theorem takeWhile_append_not (p : Char → Bool) (l : List Char) (x : Char) (r : List Char)
    (hl : ∀ c ∈ l, p c = true) (hx : p x = false) :
    (l ++ x :: r).takeWhile p = l := by
  induction l with
  | nil => simp [List.takeWhile, hx]
  | cons a l ih =>
      have ha : p a = true := hl a (by simp)
      simp only [List.cons_append, List.takeWhile_cons, ha, if_pos]
      rw [ih (fun c hc => hl c (by simp [hc]))]

theorem dropWhile_append_not (p : Char → Bool) (l : List Char) (x : Char) (r : List Char)
    (hl : ∀ c ∈ l, p c = true) (hx : p x = false) :
    (l ++ x :: r).dropWhile p = x :: r := by
  induction l with
  | nil => simp [List.dropWhile, hx]
  | cons a l ih =>
      have ha : p a = true := hl a (by simp)
      simp only [List.cons_append, List.dropWhile_cons, ha, if_pos]
      exact ih (fun c hc => hl c (by simp [hc]))

theorem takeWhile_of_all (p : Char → Bool) (l : List Char) (hl : ∀ c ∈ l, p c = true) :
    l.takeWhile p = l := by
  induction l with
  | nil => rfl
  | cons a l ih =>
      have ha : p a = true := hl a (by simp)
      simp only [List.takeWhile_cons, ha, if_pos]
      rw [ih (fun c hc => hl c (by simp [hc]))]

theorem dropWhile_of_all (p : Char → Bool) (l : List Char) (hl : ∀ c ∈ l, p c = true) :
    l.dropWhile p = [] := by
  induction l with
  | nil => rfl
  | cons a l ih =>
      have ha : p a = true := hl a (by simp)
      simp only [List.dropWhile_cons, ha, if_pos]
      exact ih (fun c hc => hl c (by simp [hc]))

theorem parseUnsigned_showAmount (q : ℚ) (h0 : 0 ≤ q) (h2 : (q * 100).den = 1) :
    parseUnsigned (showAmount q) = some q := by
  have hnum : (0 : ℤ) ≤ (q * 100).num := by
    rw [Rat.num_nonneg]
    positivity
  obtain ⟨n, hn⟩ : ∃ n : ℕ, (q * 100).num = (n : ℤ) :=
    ⟨(q * 100).num.toNat, (Int.toNat_of_nonneg hnum).symm⟩
  have hqn : q * 100 = (n : ℚ) := by
    have h1 : q * 100 = ((q * 100).num : ℚ) := (Rat.coe_int_num_of_den_eq_one h2).symm
    rw [h1, hn]
    norm_cast
  have hq : q = (n : ℚ) / 100 := by
    rw [eq_div_iff (by norm_num : (100 : ℚ) ≠ 0)]
    exact hqn
  have hshow : showAmount q = natToChars (n / 100) ++ '.' :: pad2 (n % 100) := by
    simp only [showAmount, hn, Int.toNat_ofNat]
  have hdrop : (showAmount q).dropWhile isDigit = '.' :: pad2 (n % 100) := by
    rw [hshow]
    exact dropWhile_append_not _ _ _ _ (natToChars_digits _) (by decide)
  have htake : (showAmount q).takeWhile isDigit = natToChars (n / 100) := by
    rw [hshow]
    exact takeWhile_append_not _ _ _ _ (natToChars_digits _) (by decide)
  have hfd : (pad2 (n % 100)).dropWhile isDigit = [] :=
    dropWhile_of_all _ _ (pad2_digits _ (Nat.mod_lt _ (by omega)))
  have hft : (pad2 (n % 100)).takeWhile isDigit = pad2 (n % 100) :=
    takeWhile_of_all _ _ (pad2_digits _ (Nat.mod_lt _ (by omega)))
  have hne : (natToChars (n / 100)).isEmpty = false := by
    cases hcc : natToChars (n / 100) with
    | nil => exact absurd hcc (natToChars_ne_nil _)
    | cons a l => rfl
  simp only [parseUnsigned, hdrop, htake, hft, hfd, List.isEmpty_nil, hne,
    Bool.false_and, if_pos rfl, Bool.false_eq_true, if_false, if_true]
  rw [digitsToNat_natToChars, digitsToNat_pad2 _ (Nat.mod_lt _ (by omega))]
  congr 1
  rw [hq, show (pad2 (n % 100)).length = 2 from rfl,
    show ((10 : ℚ) ^ 2) = 100 by norm_num]
  field_simp
  norm_cast
  omega

theorem parseFloat_showAmount (q : ℚ) (h0 : 0 ≤ q) (h2 : (q * 100).den = 1) :
    parseFloat (showAmount q) = some q := by
  have hu := parseUnsigned_showAmount q h0 h2
  have hshow : showAmount q =
      natToChars ((q * 100).num.toNat / 100) ++
        '.' :: pad2 ((q * 100).num.toNat % 100) := rfl
  obtain ⟨a, l, hal⟩ : ∃ a l, natToChars ((q * 100).num.toNat / 100) = a :: l := by
    cases hgg : natToChars ((q * 100).num.toNat / 100) with
    | nil => exact absurd hgg (natToChars_ne_nil _)
    | cons a l => exact ⟨a, l, rfl⟩
  have hcons : showAmount q = a :: (l ++ '.' :: pad2 ((q * 100).num.toNat % 100)) := by
    rw [hshow, hal, List.cons_append]
  have hcd : isDigit a = true := natToChars_digits _ a (by rw [hal]; simp)
  have h1 : a ≠ '-' := by
    intro h
    rw [h] at hcd
    exact absurd hcd (by decide)
  have h2p : a ≠ '+' := by
    intro h
    rw [h] at hcd
    exact absurd hcd (by decide)
  rw [hcons] at hu ⊢
  rw [parseFloat]
  simp only [if_neg h1, if_neg h2p]
  exact hu

theorem fieldSep_of_special (c : Char) (h : csvSpecial c = false) : fieldSep c = false := by
  simp only [csvSpecial, Bool.or_eq_false_iff, decide_eq_false_iff_not] at h
  simp only [fieldSep, Bool.or_eq_false_iff, decide_eq_false_iff_not]
  exact ⟨⟨h.1.1.1, h.1.2⟩, h.2⟩

theorem parseQuoted_escape (f : List Char) (rest : List Char)
    (hrest : rest.head? ≠ some '"') :
    parseQuoted (escapeQuotes f ++ '"' :: rest) = (f, rest) := by
  induction f with
  | nil =>
      simp only [escapeQuotes, List.nil_append]
      cases rest with
      | nil => simp [parseQuoted]
      | cons c r =>
          have hc : c ≠ '"' := by
            intro h
            apply hrest
            rw [h]
            rfl
          rw [parseQuoted]
          simp [hc]
  | cons x xs ih =>
      by_cases hx : x = '"'
      · subst hx
        simp only [escapeQuotes, if_pos rfl, List.cons_append]
        rw [parseQuoted.eq_def]
        simp [ih]
      · simp only [escapeQuotes, if_neg hx, List.cons_append]
        rw [parseQuoted.eq_def]
        simp [hx, ih]

theorem parseField_quoteField (f : List Char) (rest : List Char)
    (hrest : ∀ c, rest.head? = some c → fieldSep c = true) :
    parseField (quoteField f ++ rest) = (f, rest) := by
  by_cases hq : needsQuote f
  · have hassoc : quoteField f ++ rest = '"' :: (escapeQuotes f ++ '"' :: rest) := by
      simp [quoteField, if_pos hq, List.append_assoc]
    rw [hassoc, parseField]
    simp only [if_pos rfl]
    have h1 : rest.head? ≠ some '"' := by
      intro hcon
      have := hrest _ hcon
      simp [fieldSep] at this
    rw [parseQuoted_escape f rest h1]
    cases rest with
    | nil => simp
    | cons c r =>
        have hcr := hrest c rfl
        simp [List.takeWhile, List.dropWhile, hcr]
  · have hnos : ∀ c ∈ f, csvSpecial c = false := by
      intro c hc
      by_contra hcon
      apply hq
      simp only [needsQuote, List.any_eq_true]
      exact ⟨c, hc, by simpa using hcon⟩
    have hfall : ∀ c ∈ f, (!fieldSep c) = true := by
      intro c hc
      rw [fieldSep_of_special c (hnos c hc)]
      rfl
    simp only [quoteField, if_neg hq]
    cases f with
    | nil =>
        simp only [List.nil_append]
        cases rest with
        | nil => simp [parseField]
        | cons c r =>
            have hcr := hrest c rfl
            have hcq : c ≠ '"' := by
              intro h
              rw [h] at hcr
              simp [fieldSep] at hcr
            rw [parseField]
            simp [hcq, List.takeWhile, List.dropWhile, hcr]
    | cons x xs =>
        have hxs : csvSpecial x = false := hnos x (by simp)
        have hxq : x ≠ '"' := by
          intro h
          rw [h] at hxs
          simp [csvSpecial] at hxs
        rw [List.cons_append, parseField]
        simp only [if_neg hxq]
        rw [← List.cons_append]
        cases rest with
        | nil =>
            rw [List.append_nil, takeWhile_of_all _ _ hfall, dropWhile_of_all _ _ hfall]
        | cons c r =>
            have hcr := hrest c rfl
            rw [takeWhile_append_not _ _ c r hfall (by simp [hcr]),
                dropWhile_append_not _ _ c r hfall (by simp [hcr])]

theorem length_le_writeRow : ∀ fs : List (List Char), fs.length ≤ (writeRow fs).length := by
  intro fs
  induction fs using writeRow.induct with
  | case1 => simp [writeRow]
  | case2 f => simp [writeRow]
  | case3 f g fs ih =>
      rw [writeRow]
      simp only [List.length_append, List.length_cons]
      simp only [List.length_cons] at ih ⊢
      omega

theorem one_le_writeRow_length : ∀ fs : List (List Char), 1 ≤ (writeRow fs).length := by
  intro fs
  induction fs using writeRow.induct with
  | case1 => simp [writeRow]
  | case2 f => simp [writeRow]
  | case3 f g fs ih =>
      rw [writeRow]
      simp only [List.length_append, List.length_cons]
      omega

theorem parseRecAux_writeRow (fs : List (List Char)) (hne : fs ≠ []) :
    ∀ (rest : List Char) (fuel : Nat), fs.length ≤ fuel →
      parseRecAux fuel (writeRow fs ++ rest) = (fs, rest) := by
  induction fs with
  | nil => exact absurd rfl hne
  | cons f fs ih =>
      intro rest fuel hfuel
      cases fuel with
      | zero => simp at hfuel
      | succ fuel =>
          cases fs with
          | nil =>
              have h1 : writeRow [f] ++ rest = quoteField f ++ ('\r' :: '\n' :: rest) := by
                simp [writeRow]
              rw [parseRecAux, h1,
                parseField_quoteField f _ (by intro c hc; simp at hc; rw [← hc]; rfl)]
              simp
          | cons g fs2 =>
              have h1 : writeRow (f :: g :: fs2) ++ rest =
                  quoteField f ++ (',' :: (writeRow (g :: fs2) ++ rest)) := by
                simp [writeRow]
              rw [parseRecAux, h1,
                parseField_quoteField f _ (by intro c hc; simp at hc; rw [← hc]; rfl)]
              have ih2 := ih (by simp) rest fuel (by simp at hfuel ⊢; omega)
              simp [ih2]

theorem csvParseAux_cons (fuel : Nat) (s : List Char) (hs : s ≠ []) :
    csvParseAux (fuel + 1) s =
      (parseRecAux s.length s).1 :: csvParseAux fuel (parseRecAux s.length s).2 := by
  cases s with
  | nil => exact absurd rfl hs
  | cons c t => rw [csvParseAux]

theorem writeCsv_nil : writeCsv [] = [] := rfl

theorem writeCsv_cons (r : List (List Char)) (rows : List (List (List Char))) :
    writeCsv (r :: rows) = writeRow r ++ writeCsv rows := by
  simp [writeCsv]

theorem length_le_writeCsv (rows : List (List (List Char))) :
    rows.length ≤ (writeCsv rows).length := by
  induction rows with
  | nil => simp [writeCsv]
  | cons r rows ih =>
      rw [writeCsv_cons]
      simp only [List.length_append, List.length_cons]
      have := one_le_writeRow_length r
      omega

theorem csvParseAux_writeCsv (rows : List (List (List Char)))
    (hne : ∀ r ∈ rows, r ≠ []) :
    ∀ fuel : Nat, rows.length ≤ fuel → csvParseAux fuel (writeCsv rows) = rows := by
  induction rows with
  | nil =>
      intro fuel _
      rw [writeCsv_nil]
      cases fuel <;> rfl
  | cons r rows ih =>
      intro fuel hfuel
      cases fuel with
      | zero => simp at hfuel
      | succ fuel =>
          rw [writeCsv_cons]
          have hwne : writeRow r ++ writeCsv rows ≠ [] := by
            intro hcon
            have := congrArg List.length hcon
            simp only [List.length_append, List.length_nil] at this
            have := one_le_writeRow_length r
            omega
          rw [csvParseAux_cons fuel _ hwne]
          have hrec := parseRecAux_writeRow r (hne r (by simp)) (writeCsv rows)
            (writeRow r ++ writeCsv rows).length
            (by
              simp only [List.length_append]
              have := length_le_writeRow r
              omega)
          rw [hrec]
          simp only
          rw [ih (fun x hx => hne x (by simp [hx])) fuel (by simp at hfuel ⊢; omega)]

theorem csvParse_writeCsv (rows : List (List (List Char)))
    (hne : ∀ r ∈ rows, r ≠ []) :
    csvParse (writeCsv rows) = rows :=
  csvParseAux_writeCsv rows hne _ (length_le_writeCsv rows)

theorem processRow_expenseRow (e : Expense) (h : ValidExpense e) :
    processRow (expenseRow e) = .ok e := by
  simp only [expenseRow, processRow]
  rw [parseFloat_showAmount e.amount h.1 h.2]

theorem processRows_map_expenseRow (es : List Expense) (h : ∀ e ∈ es, ValidExpense e) :
    processRows (es.map expenseRow) = (es, false) := by
  induction es with
  | nil => rfl
  | cons e es ih =>
      simp only [List.map_cons, processRows, processRow_expenseRow e (h e (by simp))]
      rw [ih (fun x hx => h x (by simp [hx]))]

theorem sumValues_addToTotals (l : List (List Char × ℚ)) (c : List Char) (a : ℚ) :
    sumValues (addToTotals l c a) = sumValues l + a := by
  induction l with
  | nil => simp [addToTotals, sumValues]
  | cons p ps ih =>
      by_cases h : p.1 = c
      · simp [addToTotals, h, sumValues]
        ring
      · simp [addToTotals, h, sumValues] at ih ⊢
        rw [ih]
        ring

theorem sumValues_category_totals (es : List Expense) :
    sumValues (category_totals es) = totalSpent es := by
  suffices h : ∀ acc, sumValues (es.foldl (fun acc e => addToTotals acc e.category e.amount) acc) =
      sumValues acc + totalSpent es by
    simpa [category_totals, sumValues] using h []
  induction es with
  | nil =>
      intro acc
      simp [totalSpent]
  | cons e es ih =>
      intro acc
      simp only [List.foldl_cons, ih, sumValues_addToTotals, totalSpent,
        List.map_cons, List.sum_cons]
      ring

theorem sumValues_mergeSort (l : List (List Char × ℚ)) :
    sumValues (l.mergeSort pairLe) = sumValues l := by
  unfold sumValues
  exact ((List.mergeSort_perm l pairLe).map Prod.snd).sum_eq

theorem totalSpent_pos (es : List Expense) (hnn : ∀ e ∈ es, 0 ≤ e.amount)
    (hpos : ∃ e ∈ es, 0 < e.amount) : 0 < totalSpent es := by
  obtain ⟨e, he, hea⟩ := hpos
  have hle : e.amount ≤ totalSpent es := by
    apply List.single_le_sum
    · intro x hx
      obtain ⟨y, hy, rfl⟩ := List.mem_map.mp hx
      exact hnn y hy
    · exact List.mem_map.mpr ⟨e, he, rfl⟩
  linarith

theorem sumValues_category_percentages (es : List Expense) (h : totalSpent es ≠ 0) :
    sumValues (category_percentages es) = 100 := by
  unfold category_percentages sumValues
  rw [List.map_map]
  have hf : (Prod.snd ∘ fun p : List Char × ℚ => (p.1, p.2 / totalSpent es * 100)) =
      fun p : List Char × ℚ => p.2 * (100 / totalSpent es) := by
    funext p
    simp only [Function.comp_apply]
    field_simp
  rw [hf, List.sum_map_mul_right]
  have : (List.map Prod.snd (category_totals es)).sum = totalSpent es :=
    sumValues_category_totals es
  rw [this]
  field_simp

theorem processRow_cases (r : List (List Char)) :
    (processRow r = .err ∧ rowToExpense r = none) ∨
    (processRow r = .skip ∧ rowToExpense r = none) ∨
    (∃ e, processRow r = .ok e ∧ rowToExpense r = some e) := by
  match r with
  | [] => right; left; exact ⟨rfl, rfl⟩
  | [_] => right; left; exact ⟨rfl, rfl⟩
  | [_, _] => right; left; exact ⟨rfl, rfl⟩
  | [_, _, _] => right; left; exact ⟨rfl, rfl⟩
  | d :: a :: c :: de :: rest =>
      cases hp : parseFloat a with
      | none =>
          left
          exact ⟨by simp [processRow, hp], by simp [rowToExpense, hp]⟩
      | some q =>
          right; right
          exact ⟨⟨d, q, c, de⟩, by simp [processRow, hp], by simp [rowToExpense, hp]⟩

theorem processRows_abort (rs1 : List (List (List Char))) (r : List (List Char))
    (rs2 : List (List (List Char)))
    (h1 : ∀ x ∈ rs1, processRow x ≠ .err) (h2 : processRow r = .err) :
    processRows (rs1 ++ r :: rs2) = (rs1.filterMap rowToExpense, true) := by
  induction rs1 with
  | nil => simp [processRows, h2]
  | cons x xs ih =>
      have ih2 := ih (fun y hy => h1 y (by simp [hy]))
      rcases processRow_cases x with ⟨he, _⟩ | ⟨hs, hn⟩ | ⟨e, ho, hsome⟩
      · exact absurd he (h1 x (by simp))
      · simp [processRows, hs, hn, List.filterMap_cons, ih2]
      · simp [processRows, ho, hsome, List.filterMap_cons, ih2]

theorem pyCapitalize_length (s : List Char) : (pyCapitalize s).length = s.length := by
  cases s <;> simp [pyCapitalize]

theorem pyCapitalize_getElem (s : List Char) (i : Nat) (hi : 1 ≤ i) :
    (pyCapitalize s)[i]? = (s[i]?).map Char.toLower := by
  cases s with
  | nil => simp [pyCapitalize]
  | cons c cs =>
      cases i with
      | zero => omega
      | succ j => simp [pyCapitalize]

theorem splitSlash_ne_nil (s : List Char) : splitSlash s ≠ [] := by
  cases s with
  | nil => simp [splitSlash]
  | cons c rest => by_cases h : c = '/' <;> simp [splitSlash, h]

theorem splitSlash_no_slash (s : List Char) (h : '/' ∉ s) : splitSlash s = [s] := by
  induction s with
  | nil => rfl
  | cons c rest ih =>
      have hc : c ≠ '/' := fun hh => h (by simp [hh])
      have hr : '/' ∉ rest := fun hh => h (by simp [hh])
      simp [splitSlash, hc, ih hr]

theorem splitSlash_append (a b : List Char) (ha : '/' ∉ a) :
    splitSlash (a ++ '/' :: b) = a :: splitSlash b := by
  induction a with
  | nil => simp [splitSlash]
  | cons c rest ih =>
      have hc : c ≠ '/' := fun hh => ha (by simp [hh])
      have hr : '/' ∉ rest := fun hh => ha (by simp [hh])
      simp [splitSlash, hc, ih hr]

theorem splitSlash_parts (s : List Char) : ∀ p ∈ splitSlash s, '/' ∉ p := by
  induction s with
  | nil =>
      intro p hp
      simp [splitSlash] at hp
      simp [hp]
  | cons c rest ih =>
      intro p hp
      by_cases hc : c = '/'
      · simp only [splitSlash, if_pos hc] at hp
        rcases List.mem_cons.mp hp with rfl | hp
        · simp
        · exact ih p hp
      · simp only [splitSlash, if_neg hc] at hp
        cases hh : splitSlash rest with
        | nil => exact absurd hh (splitSlash_ne_nil rest)
        | cons q qs =>
            rw [hh] at hp
            rcases List.mem_cons.mp hp with rfl | hp
            · intro hmem
              simp only [List.headD_cons] at hmem
              rcases List.mem_cons.mp hmem with h1 | h1
              · exact hc h1.symm
              · exact ih q (by rw [hh]; simp) h1
            · simp only [List.tail_cons] at hp
              exact ih p (by rw [hh]; exact List.mem_cons_of_mem q hp)


theorem joinSlash_cons_cons (c : Char) (q : List Char) (qs : List (List Char)) :
    joinSlash ((c :: q) :: qs) = c :: joinSlash (q :: qs) := by
  cases qs with
  | nil => rfl
  | cons r rs => simp [joinSlash]

theorem joinSlash_splitSlash (s : List Char) : joinSlash (splitSlash s) = s := by
  induction s with
  | nil => rfl
  | cons c rest ih =>
      by_cases hc : c = '/'
      · subst hc
        simp only [splitSlash, if_pos rfl]
        cases hh : splitSlash rest with
        | nil => exact absurd hh (splitSlash_ne_nil rest)
        | cons q qs =>
            rw [hh] at ih
            simp [joinSlash, ih]
      · simp only [splitSlash, if_neg hc]
        cases hh : splitSlash rest with
        | nil => exact absurd hh (splitSlash_ne_nil rest)
        | cons q qs =>
            rw [hh] at ih
            simp only [List.headD_cons, List.tail_cons]
            rw [joinSlash_cons_cons, ih]

theorem daysInMonth_le_31 (y m : Nat) : daysInMonth y m ≤ 31 := by
  unfold daysInMonth
  split
  · split <;> omega
  · split <;> omega

theorem matchNum2_some (lo hi : Nat) (s : List Char) (m : Nat)
    (h : matchNum2 lo hi s = some m) :
    (∀ c ∈ s, isDigit c = true) ∧ 1 ≤ s.length ∧ s.length ≤ 2 ∧
      digitsToNat s = m ∧ lo ≤ m ∧ m ≤ hi := by
  unfold matchNum2 at h
  split at h
  · next hcond =>
      injection h with h
      subst h
      simp only [Bool.and_eq_true, List.all_eq_true, decide_eq_true_eq] at hcond
      exact ⟨hcond.1.1.1.1, hcond.1.1.1.2, hcond.1.1.2, rfl, hcond.1.2, hcond.2⟩
  · exact absurd h (by simp)

theorem matchNum2_of (lo hi : Nat) (s : List Char)
    (hd : ∀ c ∈ s, isDigit c = true) (h1 : 1 ≤ s.length) (h2 : s.length ≤ 2)
    (hlo : lo ≤ digitsToNat s) (hhi : digitsToNat s ≤ hi) :
    matchNum2 lo hi s = some (digitsToNat s) := by
  unfold matchNum2
  rw [if_pos]
  simp only [Bool.and_eq_true, List.all_eq_true, decide_eq_true_eq]
  exact ⟨⟨⟨⟨hd, h1⟩, h2⟩, hlo⟩, hhi⟩

theorem matchYear4_some (s : List Char) (y : Nat) (h : matchYear4 s = some y) :
    (∀ c ∈ s, isDigit c = true) ∧ s.length = 4 ∧ digitsToNat s = y := by
  unfold matchYear4 at h
  split at h
  · next hcond =>
      injection h with h
      subst h
      simp only [Bool.and_eq_true, List.all_eq_true, decide_eq_true_eq] at hcond
      exact ⟨hcond.1, hcond.2, rfl⟩
  · exact absurd h (by simp)

theorem matchYear4_of (s : List Char)
    (hd : ∀ c ∈ s, isDigit c = true) (h4 : s.length = 4) :
    matchYear4 s = some (digitsToNat s) := by
  unfold matchYear4
  rw [if_pos]
  simp only [Bool.and_eq_true, List.all_eq_true, decide_eq_true_eq]
  exact ⟨hd, h4⟩

theorem no_slash_of_digits (s : List Char) (hd : ∀ c ∈ s, isDigit c = true) :
    '/' ∉ s := by
  intro hmem
  exact absurd (hd '/' hmem) (by decide)

theorem strptimeMDY_isSome_iff (s : List Char) :
    (strptimeMDY s).isSome = true ↔ AcceptableDate s := by
  constructor
  · intro h
    unfold strptimeMDY at h
    rcases hsp : splitSlash s with _ | ⟨mp, _ | ⟨dp, _ | ⟨yp, _ | ⟨p4, t4⟩⟩⟩⟩ <;>
      rw [hsp] at h
    · simp at h
    · simp at h
    · simp at h
    · dsimp only at h
      cases hm : matchNum2 1 12 mp with
      | none => rw [hm] at h; simp at h
      | some m =>
        cases hd : matchNum2 1 31 dp with
        | none => rw [hm, hd] at h; simp at h
        | some d =>
          cases hy : matchYear4 yp with
          | none => rw [hm, hd, hy] at h; simp at h
          | some y =>
            rw [hm, hd, hy] at h
            dsimp only at h
            split at h
            · next hcond =>
                have hmm := matchNum2_some _ _ _ _ hm
                have hdd := matchNum2_some _ _ _ _ hd
                have hyy := matchYear4_some _ _ hy
                have hjoin : s = mp ++ '/' :: (dp ++ '/' :: yp) := by
                  have := joinSlash_splitSlash s
                  rw [hsp] at this
                  exact this.symm
                refine ⟨mp, dp, yp, hjoin, hmm.1, hmm.2.1, hmm.2.2.1, ?_, ?_,
                  hdd.1, hdd.2.1, hdd.2.2.1, ?_, hyy.1, hyy.2.1, ?_, ?_⟩
                · rw [hmm.2.2.2.1]; exact hmm.2.2.2.2.1
                · rw [hmm.2.2.2.1]; exact hmm.2.2.2.2.2
                · rw [hdd.2.2.2.1]; exact hdd.2.2.2.2.1
                · rw [hyy.2.2]; exact hcond.1
                · rw [hdd.2.2.2.1, hyy.2.2, hmm.2.2.2.1]; exact hcond.2
            · simp at h
    · simp at h
  · rintro ⟨mp, dp, yp, hs, hmd, hm1, hm2, hmlo, hmhi, hdd, hd1, hd2, hdlo,
      hyd, hy4, hylo, hday⟩
    have hsp : splitSlash s = [mp, dp, yp] := by
      rw [hs, splitSlash_append mp _ (no_slash_of_digits mp hmd),
        splitSlash_append dp _ (no_slash_of_digits dp hdd),
        splitSlash_no_slash yp (no_slash_of_digits yp hyd)]
    unfold strptimeMDY
    rw [hsp]
    simp only
    rw [matchNum2_of 1 12 mp hmd hm1 hm2 hmlo hmhi,
      matchNum2_of 1 31 dp hdd hd1 hd2 hdlo
        (le_trans hday (daysInMonth_le_31 _ _)),
      matchYear4_of yp hyd hy4]
    simp only
    rw [if_pos ⟨hylo, hday⟩]
    rfl


theorem parseFloat_digits (s : List Char) (hne : s ≠ [])
    (hd : ∀ c ∈ s, isDigit c = true) :
    parseFloat s = some ((digitsToNat s : ℕ) : ℚ) := by
  cases s with
  | nil => exact absurd rfl hne
  | cons c t =>
      have hcd := hd c (by simp)
      have h1 : c ≠ '-' := by
        intro h
        rw [h] at hcd
        exact absurd hcd (by decide)
      have h2 : c ≠ '+' := by
        intro h
        rw [h] at hcd
        exact absurd hcd (by decide)
      rw [parseFloat, if_neg h1, if_neg h2, parseUnsigned]
      rw [dropWhile_of_all _ _ hd]
      dsimp only
      rw [takeWhile_of_all _ _ hd]
      rw [if_neg (by simp)]

theorem parseFloat_fifty : parseFloat ['5', '0'] = some 50 := by
  rw [parseFloat_digits _ (by decide) (by decide),
    show digitsToNat ['5', '0'] = 50 from by decide]
  norm_num

theorem parseFloat_thirty : parseFloat ['3', '0'] = some 30 := by
  rw [parseFloat_digits _ (by decide) (by decide),
    show digitsToNat ['3', '0'] = 30 from by decide]
  norm_num

theorem parseFloat_twenty : parseFloat ['2', '0'] = some 20 := by
  rw [parseFloat_digits _ (by decide) (by decide),
    show digitsToNat ['2', '0'] = 20 from by decide]
  norm_num

theorem processRow_lunchRow : processRow lunchRow = .ok lunchExpense := by
  simp [processRow, lunchRow, parseFloat_fifty, lunchExpense]

theorem processRow_dinnerRow : processRow dinnerRow = .ok dinnerExpense := by
  simp [processRow, dinnerRow, parseFloat_thirty, dinnerExpense]

theorem processRow_busRow : processRow busRow = .ok busExpense := by
  simp [processRow, busRow, parseFloat_twenty, busExpense]

theorem processRows_cons_ok (r : List (List Char)) (rs : List (List (List Char)))
    (e : Expense) (h : processRow r = .ok e) :
    processRows (r :: rs) = (e :: (processRows rs).1, (processRows rs).2) := by
  simp only [processRows, h]

theorem processRows_cons_err (r : List (List Char)) (rs : List (List (List Char)))
    (h : processRow r = .err) : processRows (r :: rs) = ([], true) := by
  simp only [processRows, h]

theorem processRows_cons_skip (r : List (List Char)) (rs : List (List (List Char)))
    (h : processRow r = .skip) : processRows (r :: rs) = processRows rs := by
  simp only [processRows, h]

/-! ## Claim theorems -/

/-- Claim C1, counterexample: loading a file whose well-formed first data
row precedes a malformed-amount (`abc`) row reports an error but returns
the nonempty partial sequence `[lunchExpense]` — not the empty sequence the
claim asserts. -/
theorem claim_c1_counterexample :
    load_expenses_from_csv fileGoodThenBad = ([lunchExpense], true) ∧
    (load_expenses_from_csv fileGoodThenBad).1 ≠ [] := by
  have h : load_expenses_from_csv fileGoodThenBad = ([lunchExpense], true) := by
    unfold load_expenses_from_csv
    rw [show (csvParse fileGoodThenBad).drop 1 = [lunchRow, badRow] from by decide]
    rw [processRows_cons_ok _ _ _ processRow_lunchRow,
      processRows_cons_err _ _ (by decide)]
  exact ⟨h, by rw [h]; simp⟩

/-- Claim C1, amended: a malformed amount field aborts the load at that row:
the error is reported and the caller receives exactly the expenses of the
well-formed rows preceding the first malformed row (a partial sequence;
rows after the malformed one are dropped). -/
theorem claim_c1 (file : List Char) (rs1 : List (List (List Char)))
    (r : List (List Char)) (rs2 : List (List (List Char)))
    (hsplit : (csvParse file).drop 1 = rs1 ++ r :: rs2)
    (h1 : ∀ x ∈ rs1, processRow x ≠ .err) (h2 : processRow r = .err) :
    load_expenses_from_csv file = (rs1.filterMap rowToExpense, true) := by
  unfold load_expenses_from_csv
  rw [hsplit]
  exact processRows_abort rs1 r rs2 h1 h2

/-- Witness for C1 at `fileGoodThenBad`. -/
theorem claim_c1_witness :
    load_expenses_from_csv fileGoodThenBad = ([lunchRow].filterMap rowToExpense, true) :=
  claim_c1 fileGoodThenBad [lunchRow] badRow [] (by decide)
    (by
      intro x hx
      rw [List.mem_singleton.mp hx, processRow_lunchRow]
      simp)
    (by decide)

/-- Claim C2: loading the file produced by saving any sequence of valid
expense entries reproduces exactly the same entries, in the same order,
with no error reported. -/
theorem claim_c2 (expenses : List Expense) (h : ∀ e ∈ expenses, ValidExpense e) :
    load_expenses_from_csv (save_expenses_to_csv expenses) = (expenses, false) := by
  unfold load_expenses_from_csv save_expenses_to_csv
  rw [csvParse_writeCsv]
  · rw [List.drop_one, List.tail_cons]
    exact processRows_map_expenseRow expenses h
  · intro r hr
    rcases List.mem_cons.mp hr with rfl | hr
    · simp [headerRow]
    · obtain ⟨e, _, rfl⟩ := List.mem_map.mp hr
      simp [expenseRow]

/-- Witness for C2 on the spec's worked scenario. -/
theorem claim_c2_witness :
    load_expenses_from_csv (save_expenses_to_csv scenarioExpenses) =
      (scenarioExpenses, false) :=
  claim_c2 scenarioExpenses (by
    intro e he
    simp only [scenarioExpenses, List.mem_cons, List.not_mem_nil, or_false] at he
    rcases he with rfl | rfl | rfl
    · exact ⟨by norm_num [lunchExpense], by norm_num [lunchExpense]⟩
    · exact ⟨by norm_num [dinnerExpense], by norm_num [dinnerExpense]⟩
    · exact ⟨by norm_num [busExpense], by norm_num [busExpense]⟩)

/-- Claim C3, counterexample: a non-empty store whose single entry has the
valid amount 0 has total 0, and `show_statistics` on it reaches the division
with `total_spent == 0` (a `ZeroDivisionError`), so a zero total does not
only arise for the empty store. -/
theorem claim_c3_counterexample :
    ([zeroExpense] : List Expense) ≠ [] ∧ ValidAmount zeroExpense.amount ∧
    totalSpent [zeroExpense] = 0 ∧
    show_statistics [zeroExpense] = .zeroDivisionError := by
  have ht : totalSpent [zeroExpense] = 0 := by
    simp [totalSpent, zeroExpense]
  refine ⟨by simp, ⟨by norm_num [zeroExpense], by norm_num [zeroExpense]⟩, ht, ?_⟩
  rw [show_statistics, if_neg (by simp), if_pos ht]

/-- Claim C3, amended: for a store of valid (nonnegative) amounts with at
least one strictly positive amount, the total is strictly positive, so the
percentage division in `show_statistics` is never a division by zero and the
statistics are produced. -/
theorem claim_c3 (expenses : List Expense) (hnn : ∀ e ∈ expenses, 0 ≤ e.amount)
    (hpos : ∃ e ∈ expenses, 0 < e.amount) :
    0 < totalSpent expenses ∧
    show_statistics expenses =
      .ok (totalSpent expenses) (category_percentages expenses) := by
  have hp := totalSpent_pos expenses hnn hpos
  have hne : expenses ≠ [] := by
    rintro rfl
    obtain ⟨e, he, _⟩ := hpos
    simp at he
  refine ⟨hp, ?_⟩
  rw [show_statistics, if_neg hne, if_neg (ne_of_gt hp)]

/-- Witness for C3 on the spec's worked scenario. -/
theorem claim_c3_witness :
    0 < totalSpent scenarioExpenses ∧
    show_statistics scenarioExpenses =
      .ok (totalSpent scenarioExpenses) (category_percentages scenarioExpenses) :=
  claim_c3 scenarioExpenses
    (by
      intro e he
      simp only [scenarioExpenses, List.mem_cons, List.not_mem_nil, or_false] at he
      rcases he with rfl | rfl | rfl
      · norm_num [lunchExpense]
      · norm_num [dinnerExpense]
      · norm_num [busExpense])
    ⟨lunchExpense, by simp [scenarioExpenses], by norm_num [lunchExpense]⟩

/-- Claim C4, counterexample: `str.capitalize` lowercases the characters
after the first, so the category `fOOD` is stored as `Food`; the character
at index 1 is changed, contradicting the claim that the rest of the string
is unchanged. -/
theorem claim_c4_counterexample :
    pyCapitalize ("fOOD".toList) = "Food".toList ∧
    (pyCapitalize ("fOOD".toList))[1]? ≠ ("fOOD".toList)[1]? := by
  constructor
  · decide
  · decide

/-- Claim C4, amended: category normalization uppercases the first character
of the trimmed input and lowercases (not: leaves unchanged) every character
after the first, preserving the length. -/
theorem claim_c4 (s : List Char) :
    (pyCapitalize s).length = s.length ∧
    (pyCapitalize s)[0]? = (s[0]?).map Char.toUpper ∧
    (∀ i : Nat, 1 ≤ i → (pyCapitalize s)[i]? = (s[i]?).map Char.toLower) := by
  refine ⟨pyCapitalize_length s, ?_, fun i hi => pyCapitalize_getElem s i hi⟩
  cases s <;> simp [pyCapitalize]

/-- Witness for C4 at the input `fOOD`, index 1. -/
theorem claim_c4_witness :
    (pyCapitalize ("fOOD".toList))[1]? = (("fOOD".toList)[1]?).map Char.toLower :=
  (claim_c4 ("fOOD".toList)).2.2 1 (by norm_num)

/-- Claim C5, counterexample: the validator also accepts the one-digit
month form `2/05/2024` (returning it unchanged), which the claim's
"two-digit month, two-digit day" shape rejects — so the claimed two kinds
of input are not exactly the accepted ones. -/
theorem claim_c5_counterexample :
    validateDateInput ("10/12/2026".toList) ("2/05/2024".toList) =
      some ("2/05/2024".toList) ∧
    specClaimedDateAccepts ("2/05/2024".toList) = false := by
  constructor
  · decide
  · decide

/-- Claim C5, amended: the validator accepts exactly the literal token
`today` compared case-insensitively (resolving to the current date) and the
strings with one-or-two-digit month 1–12, one-or-two-digit day, and
exactly-four-digit year that name an existing calendar date; in particular
`02/30/2024`, `13/01/2024` and `00/10/2024` are rejected, and `today` and
`TODAY` both resolve to the current date. -/
theorem claim_c5 (today s : List Char) :
    ((validateDateInput today s).isSome = true ↔
      (pyLower s = "today".toList ∨ AcceptableDate s)) ∧
    validateDateInput today ("02/30/2024".toList) = none ∧
    validateDateInput today ("13/01/2024".toList) = none ∧
    validateDateInput today ("00/10/2024".toList) = none ∧
    validateDateInput today ("today".toList) = some today ∧
    validateDateInput today ("TODAY".toList) = some today := by
  refine ⟨?_, ?_, ?_, ?_, ?_, ?_⟩
  · by_cases ht : pyLower s = "today".toList
    · simp [validateDateInput, ht]
    · rw [validateDateInput, if_neg ht]
      cases hm : strptimeMDY s with
      | none =>
          dsimp only
          constructor
          · intro h
            simp at h
          · intro h
            rcases h with h | h
            · exact absurd h ht
            · have h2 := (strptimeMDY_isSome_iff s).mpr h
              rw [hm] at h2
              simp at h2
      | some v =>
          dsimp only
          constructor
          · intro _
            right
            exact (strptimeMDY_isSome_iff s).mp (by rw [hm]; rfl)
          · intro _
            simp
  · rw [validateDateInput, if_neg (by decide),
      show strptimeMDY ("02/30/2024".toList) = none from by decide]
  · rw [validateDateInput, if_neg (by decide),
      show strptimeMDY ("13/01/2024".toList) = none from by decide]
  · rw [validateDateInput, if_neg (by decide),
      show strptimeMDY ("00/10/2024".toList) = none from by decide]
  · rw [validateDateInput, if_pos (by decide)]
  · rw [validateDateInput, if_pos (by decide)]

/-- Claim C6: the per-category totals sum exactly to the sum of all entry
amounts (both for the dict and for the sorted table the view displays), the
grand total is 0 for an empty store, and the empty store is reported as the
distinct no-data case. -/
theorem claim_c6 (expenses : List Expense) :
    sumValues (category_totals expenses) = totalSpent expenses ∧
    sumValues ((category_totals expenses).mergeSort pairLe) = totalSpent expenses ∧
    view_expenses expenses = (if expenses = [] then .noData
      else .table ((category_totals expenses).mergeSort pairLe)
        (totalSpent expenses)) ∧
    totalSpent ([] : List Expense) = 0 ∧
    view_expenses ([] : List Expense) = .noData := by
  refine ⟨sumValues_category_totals expenses, ?_, ?_, by simp [totalSpent], rfl⟩
  · rw [sumValues_mergeSort]
    exact sumValues_category_totals expenses
  · rw [view_expenses, sumValues_category_totals expenses]

/-- Claim C7: whenever the total is strictly positive, the per-category
percentages `100 * categoryTotal / total` sum to exactly 100. -/
theorem claim_c7 (expenses : List Expense) (h : 0 < totalSpent expenses) :
    sumValues (category_percentages expenses) = 100 :=
  sumValues_category_percentages expenses (ne_of_gt h)

/-- Witness for C7 on the spec's worked scenario. -/
theorem claim_c7_witness : sumValues (category_percentages scenarioExpenses) = 100 :=
  claim_c7 scenarioExpenses
    (by
      rw [show totalSpent scenarioExpenses = 100 from by
        simp [totalSpent, scenarioExpenses, lunchExpense, dinnerExpense, busExpense]
        norm_num]
      norm_num)

/-- Claim C8, counterexample: in a file whose malformed-amount row precedes
a well-formed four-field row with a parseable amount, that well-formed row
is NOT accepted — the load aborts at the malformed row and returns nothing —
so "every well-formed row with at least four fields and a parseable amount
is accepted" fails as stated. -/
theorem claim_c8_counterexample :
    load_expenses_from_csv fileBadThenGood = ([], true) ∧
    rowToExpense dinnerRow = some dinnerExpense := by
  constructor
  · unfold load_expenses_from_csv
    rw [show (csvParse fileBadThenGood).drop 1 = [badRow, dinnerRow] from by decide]
    exact processRows_cons_err _ _ (by decide)
  · simp [rowToExpense, dinnerRow, parseFloat_thirty, dinnerExpense]

/-- Claim C8, amended: provided no data row has a malformed amount, the row
loop accepts exactly the rows with at least four fields and a parseable
amount (in order), silently skips every row with fewer than four fields,
and surfaces no error. -/
theorem claim_c8 (rows : List (List (List Char)))
    (h : ∀ r ∈ rows, processRow r ≠ .err) :
    processRows rows = (rows.filterMap rowToExpense, false) := by
  induction rows with
  | nil => rfl
  | cons r rs ih =>
      have ih2 := ih (fun x hx => h x (by simp [hx]))
      rcases processRow_cases r with ⟨he, _⟩ | ⟨hs, hn⟩ | ⟨e, ho, hsome⟩
      · exact absurd he (h r (by simp))
      · simp [processRows, hs, hn, List.filterMap_cons, ih2]
      · simp [processRows, ho, hsome, List.filterMap_cons, ih2]

/-- Witness for C8 on the spec's short-row scenario: the two-field second
row is skipped, both well-formed rows are accepted, no error. -/
theorem claim_c8_witness :
    processRows shortRowScenario = (shortRowScenario.filterMap rowToExpense, false) :=
  claim_c8 shortRowScenario (by
    intro r hr
    simp only [shortRowScenario, List.mem_cons, List.not_mem_nil, or_false] at hr
    rcases hr with rfl | rfl | rfl
    · rw [processRow_lunchRow]
      simp
    · rw [show processRow shortRow = RowResult.skip from by decide]
      simp
    · rw [processRow_busRow]
      simp)

/-- Claim C9: `save_expenses_to_csv` never mutates the in-memory sequence —
on success and on I/O failure alike the store the caller holds afterwards is
exactly the list passed in — and on failure an error is reported and
nothing is written. -/
theorem claim_c9 (expenses : List Expense) (writeOk : Bool) :
    (saveEffect expenses writeOk).store = expenses ∧
    (saveEffect expenses false).errorReported = true ∧
    (saveEffect expenses false).written = none ∧
    (saveEffect expenses true).written = some (save_expenses_to_csv expenses) := by
  cases writeOk <;> exact ⟨rfl, rfl, rfl, rfl⟩

/-- Claim C10: a data row with more than four fields whose amount field
parses is accepted; the expense is built from the first four fields alone,
and the fields beyond the fourth are discarded (the result is identical to
processing just the first four fields). -/
theorem claim_c10 (d a c de : List Char) (extra : List (List Char)) (q : ℚ)
    (h : parseFloat a = some q) :
    processRow (d :: a :: c :: de :: extra) = .ok ⟨d, q, c, de⟩ ∧
    processRow (d :: a :: c :: de :: extra) = processRow [d, a, c, de] := by
  constructor <;> simp [processRow, h]

/-- Witness for C10: a six-field row is accepted and the two extra fields
are ignored. -/
theorem claim_c10_witness :
    processRow ("01/15/2024".toList :: "50".toList :: "Food".toList ::
        "lunch".toList :: ["extra".toList, "junk".toList]) = .ok lunchExpense :=
  (claim_c10 ("01/15/2024".toList) ("50".toList) ("Food".toList) ("lunch".toList)
    ["extra".toList, "junk".toList] 50 parseFloat_fifty).1

end ExpenseTracker
